import Mathlib

/-!
# Wordle game core — shallow embedding

A Lean model of the game logic of a browser Wordle clone.  The embedding
covers the two JavaScript modules that hold all of the logic:

* `game.js` — configuration, fallback word list, `getRandomWord`,
  `isWordValid`, `checkGuess`, `initialiseGame`;
* `main.js` — the keyboard-driven session state machine: `addLetter`,
  `removeLetter`, `submitGuess`, `handleKeydown`.

JavaScript strings are modelled as `List Char` (a JS string is a sequence
of code units; all words here are ASCII).  `String.prototype.toLowerCase`
is modelled by mapping `Char.toLower` over the characters, which agrees
with JS on ASCII input — the only input that ever reaches it here.
The DOM-manipulating parts (cell painting, animations, alerts) have no
effect on the game state and are not modelled; the distinct UI signals of
`submitGuess` (shake missing cells / shake row / win / loss messages and
listener removal) are reified as a `SubmitResult` value.
-/

namespace Wordle

/-- Per-letter result of a guess, `'correct' | 'misplaced' | 'wrong'`
in `game.js`. -/
inductive Status where
  | correct
  | misplaced
  | wrong
deriving DecidableEq, Repr

/-- `gameConfig` of `game.js`: fixed rows/columns/word length. -/
structure GameConfig where
  rows : Nat
  cols : Nat
  wordLength : Nat
deriving DecidableEq, Repr

/-- The constant `gameConfig = { rows: 6, cols: 5, wordLength: 5 }`. -/
def gameConfig : GameConfig := { rows := 6, cols := 5, wordLength := 5 }

/-- The fixed `fallbackWords` array of `game.js`. -/
def fallbackWords : List (List Char) :=
  ["apple", "grape", "vital", "spice", "quick",
   "proxy", "flame", "serve", "crane", "blaze"].map String.toList

/-- JS `word.toLowerCase()` on an ASCII string. -/
def jsToLower (w : List Char) : List Char :=
  w.map Char.toLower

/-- Observable behaviours of the remote word API interaction in
`getRandomWord`: the `fetch`/`json()` call throws, or parses to a
non-array value, or parses to an array of strings.  (An array whose first
element is not a string makes `data[0].toLowerCase()` throw inside the
same `try`, which behaves exactly like `err`.) -/
inductive RemoteResponse where
  | err
  | nonArray
  | arr (ws : List (List Char))
deriving DecidableEq, Repr

/-- `getRandomWord` of `game.js`.  `k` models the value
`Math.floor(Math.random() * fallbackWords.length)`; the code only ever
produces indices `k % fallbackWords.length`. -/
def getRandomWord (resp : RemoteResponse) (k : Nat) : List Char :=
  match resp with
  | .arr (w :: _) => jsToLower w
  | _ => fallbackWords.getD (k % fallbackWords.length) []

/-- `isWordValid` of `game.js`:
`fallbackWords.includes(word.toLowerCase())`. -/
def isWordValid (word : List Char) : Bool :=
  fallbackWords.contains (jsToLower word)

/-! ## The guess evaluator `checkGuess`

The JS first pass walks the positions, marks `correct` where the letters
agree and nulls the corresponding entries of both letter arrays; each
iteration touches only index `i`, so the pass is position-wise and is
embedded as three `zipWith`s over guess and target (statuses, surviving
guess letters, surviving target letters; `null` is `none`).  The second
pass threads the surviving target letters through the positions,
replacing a surviving guess letter's status by `misplaced` and nulling
the first matching target occurrence whenever one remains.  Callers only
ever pass two strings of length `wordLength = 5`, for which the JS
`result` array (length `wordLength`) and the zipped lists coincide; the
spec declares unequal lengths out of scope. -/

/-- Statuses after the first pass of `checkGuess`. -/
def fpRes (g t : List Char) : List Status :=
  List.zipWith (fun a b => if a = b then Status.correct else Status.wrong) g t

/-- `guessLetters` after the first pass (`null` = consumed). -/
def fpGuess (g t : List Char) : List (Option Char) :=
  List.zipWith (fun a b => if a = b then none else some a) g t

/-- `targetLetters` after the first pass (`null` = consumed). -/
def fpTarget (g t : List Char) : List (Option Char) :=
  List.zipWith (fun a b => if a = b then none else some b) g t

/-- `targetLetters[targetLetters.indexOf(c)] = null`: null the first
remaining occurrence of `c`. -/
def consumeFirst (c : Char) : List (Option Char) → List (Option Char)
  | [] => []
  | x :: xs => if x = some c then none :: xs else x :: consumeFirst c xs

/-- Second pass of `checkGuess`: walk the surviving guess letters with
their first-pass statuses, threading the surviving target letters. -/
def secondPass :
    List (Option Char) → List Status → List (Option Char) →
      List Status × List (Option Char)
  | [], rs, ts => (rs, ts)
  | _ :: _, [], ts => ([], ts)
  | none :: gs, r :: rs, ts =>
    let p := secondPass gs rs ts
    (r :: p.1, p.2)
  | some c :: gs, r :: rs, ts =>
    if some c ∈ ts then
      let p := secondPass gs rs (consumeFirst c ts)
      (Status.misplaced :: p.1, p.2)
    else
      let p := secondPass gs rs ts
      (r :: p.1, p.2)

/-- `checkGuess` of `game.js`. -/
def checkGuess (guess target : List Char) : List Status :=
  (secondPass (fpGuess guess target) (fpRes guess target)
    (fpTarget guess target)).1

/-! ## Session state (`gameState`) and the `main.js` state machine -/

/-- `gameState` of `game.js`: target word, cursor, and the grid of
entered letters (each cell a JS string: empty or a single letter). -/
structure GameState where
  targetWord : List Char
  currentRow : Nat
  currentCol : Nat
  grid : List (List (List Char))
deriving DecidableEq, Repr

/-- `initialiseGame` of `game.js`: pick the target word and reset
counters and grid (`rows × cols` of `''`). -/
def initialiseGame (resp : RemoteResponse) (k : Nat) : GameState :=
  { targetWord := getRandomWord resp k
    currentRow := 0
    currentCol := 0
    grid := List.replicate gameConfig.rows
      (List.replicate gameConfig.cols []) }

/-- `grid[r][c] = v` (out-of-range writes cannot occur in the callers,
which guard the cursor; `List.set` ignores them). -/
def setCell (grid : List (List (List Char))) (r c : Nat) (v : List Char) :
    List (List (List Char)) :=
  grid.set r ((grid.getD r []).set c v)

/-- `addLetter` of `main.js`: bounds-check the cursor, store the
lowercased key, advance the cursor. -/
def addLetter (st : GameState) (letter : List Char) : GameState :=
  if st.currentCol ≥ gameConfig.cols ∨ st.currentRow ≥ gameConfig.rows then
    st
  else
    { st with
      grid := setCell st.grid st.currentRow st.currentCol (jsToLower letter)
      currentCol := st.currentCol + 1 }

/-- `removeLetter` of `main.js`: retract the cursor and clear the slot. -/
def removeLetter (st : GameState) : GameState :=
  if st.currentCol = 0 then st
  else
    { st with
      currentCol := st.currentCol - 1
      grid := setCell st.grid st.currentRow (st.currentCol - 1) [] }

/-- The word spelled by the current row: `grid[currentRow].join('')`. -/
def rowWord (st : GameState) : List Char :=
  (st.grid.getD st.currentRow []).flatten

/-- The observable outcome of one `submitGuess` call, standing for the
distinct UI signals: shake the empty cells (incomplete row), shake the
row with a "Not a valid word" message (invalid word), the win path
(message + key listener removed), advancing to the next row, or the
out-of-attempts path (message + key listener removed). -/
inductive SubmitResult where
  | incomplete
  | invalidWord
  | won
  | next
  | lost
deriving DecidableEq, Repr

/-- `submitGuess` of `main.js` (state part).  The win check runs before
the attempt counter advances; the loss check runs after. -/
def submitGuess (st : GameState) : SubmitResult × GameState :=
  if st.currentCol < gameConfig.cols then
    (.incomplete, st)
  else if ¬ isWordValid (rowWord st) then
    (.invalidWord, st)
  else if rowWord st = st.targetWord then
    (.won, st)
  else
    let st' := { st with currentRow := st.currentRow + 1, currentCol := 0 }
    if st'.currentRow ≥ gameConfig.rows then (.lost, st') else (.next, st')

/-- A session: the game state plus whether the keydown listener is still
attached (`document.removeEventListener` on win/loss). -/
structure Session where
  game : GameState
  listening : Bool
deriving DecidableEq, Repr

/-- `isLetter` of `main.js`:
`key.length === 1 && /[a-zA-Z]/.test(key)`. -/
def isLetterKey (k : List Char) : Bool :=
  k.length == 1 && k.any Char.isAlpha

/-- `handleKeydown` of `main.js`, as a transition on sessions.  A key
event on a session whose listener was removed is not delivered, so the
session is unchanged. -/
def handleKeydown (s : Session) (key : List Char) : Session :=
  if s.listening then
    if isLetterKey key then
      { s with game := addLetter s.game key }
    else if key = "Backspace".toList then
      { s with game := removeLetter s.game }
    else if key = "Enter".toList then
      let rg := submitGuess s.game
      { game := rg.2
        listening :=
          if rg.1 = .won ∨ rg.1 = .lost then false else s.listening }
    else s
  else s

end Wordle

namespace Wordle

/-! ## Lemmas about the two passes -/

/-- Shape of the data after the first pass, position by position: a
consumed position (`none`) carries status `correct` or `wrong`, and a
surviving position carries its original guess letter and status
`wrong`. -/
inductive Aligned : List Char → List (Option Char) → List Status → Prop
  | nil : Aligned [] [] []
  | consNone {g gs rs} (a : Char) (r : Status)
      (hr : r = Status.correct ∨ r = Status.wrong)
      (h : Aligned g gs rs) : Aligned (a :: g) (none :: gs) (r :: rs)
  | consSome {g gs rs} (a : Char) (h : Aligned g gs rs) :
      Aligned (a :: g) (some a :: gs) (Status.wrong :: rs)

/-- The first pass produces aligned data. -/
theorem aligned_fp (g : List Char) :
    ∀ t : List Char, g.length = t.length →
      Aligned g (fpGuess g t) (fpRes g t) := by
  induction g with
  | nil =>
    intro t h
    cases t with
    | nil => exact .nil
    | cons b t => simp at h
  | cons a g ih =>
    intro t h
    cases t with
    | nil => simp at h
    | cons b t =>
      have h' : g.length = t.length := by simpa using h
      by_cases hab : a = b
      · simpa [fpGuess, fpRes, hab] using
          Aligned.consNone a Status.correct (Or.inl rfl) (ih t h')
      · simpa [fpGuess, fpRes, hab] using Aligned.consSome a (ih t h')

/-- The second pass keeps one status per position. -/
theorem secondPass_length (gs : List (Option Char)) :
    ∀ (rs : List Status) (ts : List (Option Char)), gs.length = rs.length →
      ((secondPass gs rs ts).1).length = rs.length := by
  induction gs with
  | nil => intro rs ts _; simp [secondPass]
  | cons x gs ih =>
    intro rs ts h
    cases rs with
    | nil => simp at h
    | cons r rs =>
      have h' : gs.length = rs.length := by simpa using h
      cases x with
      | none => simpa [secondPass] using ih rs ts h'
      | some c =>
        by_cases hm : some c ∈ ts <;>
          simpa [secondPass, hm] using ih rs _ h'

/-- The second pass never creates or destroys a `correct` mark. -/
theorem secondPass_count_correct {g gs rs} (hal : Aligned g gs rs) :
    ∀ ts : List (Option Char),
      ((secondPass gs rs ts).1).count Status.correct
        = rs.count Status.correct := by
  induction hal with
  | nil => intro ts; simp [secondPass]
  | consNone a r hr h ih =>
    intro ts
    simp [secondPass, List.count_cons, ih ts]
  | consSome a h ih =>
    intro ts
    by_cases hm : some a ∈ ts <;>
      simp [secondPass, hm, List.count_cons, ih]

/-- The `correct` marks of the first pass are exactly the positions of
agreement between guess and target. -/
theorem fpRes_count_correct (g : List Char) :
    ∀ t : List Char,
      (fpRes g t).count Status.correct
        = (g.zip t).countP (fun p => p.1 == p.2) := by
  induction g with
  | nil => intro t; simp [fpRes]
  | cons a g ih =>
    intro t
    cases t with
    | nil => simp [fpRes]
    | cons b t =>
      rcases eq_or_ne a b with hab | hab
      · subst hab
        have step : fpRes (a :: g) (a :: t) = Status.correct :: fpRes g t := by
          simp [fpRes]
        simp [step, List.count_cons, List.countP_cons, ih t]
      · have step : fpRes (a :: g) (b :: t) = Status.wrong :: fpRes g t := by
          simp [fpRes, hab]
        simp [step, List.count_cons, List.countP_cons, hab, ih t]

/-- Nulling the first remaining occurrence of `c` removes exactly one
`c` from the remaining target letters. -/
theorem consumeFirst_count_mem (c : Char) :
    ∀ ts : List (Option Char), some c ∈ ts →
      (consumeFirst c ts).count (some c) + 1 = ts.count (some c) := by
  intro ts
  induction ts with
  | nil => intro h; simp at h
  | cons x xs ih =>
    intro h
    rcases eq_or_ne x (some c) with hx | hx
    · subst hx
      simp [consumeFirst, List.count_cons]
    · have hmem : some c ∈ xs := by
        rcases List.mem_cons.mp h with h1 | h1
        · exact absurd h1.symm hx
        · exact h1
      have := ih hmem
      simp only [consumeFirst, if_neg hx, List.count_cons]
      omega

/-- Nulling an occurrence of `c` leaves the count of any other letter
unchanged. -/
theorem consumeFirst_count_ne (c d : Char) (hdc : d ≠ c) :
    ∀ ts : List (Option Char),
      (consumeFirst c ts).count (some d) = ts.count (some d) := by
  intro ts
  induction ts with
  | nil => simp [consumeFirst]
  | cons x xs ih =>
    rcases eq_or_ne x (some c) with hx | hx
    · subst hx
      simp [consumeFirst, List.count_cons, hdc]
    · simp only [consumeFirst, if_neg hx, List.count_cons]
      omega

/-- Accounting for one letter `c` across the second pass: every
`correct`-or-`misplaced` mark on a `c`-position of the guess is paid for
by a remaining occurrence of `c` in the target letters.  The left side
counts marks in the output plus leftover `c`s, the right side counts
`correct` marks already present plus the initial `c`s. -/
theorem secondPass_marked (c : Char) {g gs rs} (hal : Aligned g gs rs) :
    ∀ ts : List (Option Char),
      ((g.zip ((secondPass gs rs ts).1)).countP
          (fun p => p.1 == c && (p.2 == Status.correct
            || p.2 == Status.misplaced)))
        + ((secondPass gs rs ts).2).count (some c)
      = ((g.zip rs).countP (fun p => p.1 == c && p.2 == Status.correct))
        + ts.count (some c) := by
  induction hal with
  | nil => intro ts; simp [secondPass]
  | consNone a r hr h ih =>
    intro ts
    have := ih ts
    rcases hr with rfl | rfl <;>
      · simp only [secondPass, List.zip_cons_cons, List.countP_cons]
        simp only [List.zip_cons_cons, List.countP_cons] at this ⊢
        rcases eq_or_ne a c with hac | hac <;> simp [hac] <;> omega
  | consSome a h ih =>
    intro ts
    rcases eq_or_ne a c with hac | hac
    · subst hac
      by_cases hm : some a ∈ ts
      · have hcount := consumeFirst_count_mem a ts hm
        have := ih (consumeFirst a ts)
        simp only [secondPass, if_pos hm, List.zip_cons_cons,
          List.countP_cons] at this ⊢
        simp at this ⊢
        omega
      · have := ih ts
        simp only [secondPass, if_neg hm, List.zip_cons_cons,
          List.countP_cons] at this ⊢
        simp at this ⊢
        omega
    · by_cases hm : some a ∈ ts
      · have hcount := consumeFirst_count_ne a c (Ne.symm hac) ts
        have := ih (consumeFirst a ts)
        simp only [secondPass, if_pos hm, List.zip_cons_cons,
          List.countP_cons] at this ⊢
        simp [hac] at this ⊢
        omega
      · have := ih ts
        simp only [secondPass, if_neg hm, List.zip_cons_cons,
          List.countP_cons] at this ⊢
        simp [hac] at this ⊢
        omega

/-- Accounting for one letter `c` across the first pass: `correct` marks
on `c`-positions plus surviving `c`s in the target letters add up to the
occurrences of `c` in the target. -/
theorem fp_marked_correct (c : Char) (g : List Char) :
    ∀ t : List Char, g.length = t.length →
      ((g.zip (fpRes g t)).countP
          (fun p => p.1 == c && p.2 == Status.correct))
        + (fpTarget g t).count (some c)
      = t.count c := by
  induction g with
  | nil =>
    intro t h
    cases t with
    | nil => simp [fpRes, fpTarget]
    | cons b t => simp at h
  | cons a g ih =>
    intro t h
    cases t with
    | nil => simp at h
    | cons b t =>
      have h' : g.length = t.length := by simpa using h
      have := ih t h'
      rcases eq_or_ne a b with hab | hab
      · subst hab
        have s1 : fpRes (a :: g) (a :: t) = Status.correct :: fpRes g t := by
          simp [fpRes]
        have s2 : fpTarget (a :: g) (a :: t) = none :: fpTarget g t := by
          simp [fpTarget]
        rcases eq_or_ne a c with hac | hac <;>
          · simp only [s1, s2, List.zip_cons_cons, List.countP_cons,
              List.count_cons]
            simp [hac]
            omega
      · have s1 : fpRes (a :: g) (b :: t) = Status.wrong :: fpRes g t := by
          simp [fpRes, hab]
        have s2 : fpTarget (a :: g) (b :: t) = some b :: fpTarget g t := by
          simp [fpTarget, hab]
        rcases eq_or_ne b c with hbc | hbc <;>
          · simp only [s1, s2, List.zip_cons_cons, List.countP_cons,
              List.count_cons]
            simp [hbc]
            omega

/-! ## Claim theorems -/

/-- C1: for every pair of 5-letter strings, `checkGuess` returns exactly
one status per position (length 5, each entry `correct`, `misplaced` or
`wrong`), and the number of `correct` marks equals the number of
positions where guess and target agree.  (Proved for all length-5
character lists, which subsumes the lowercase ones of the claim.) -/
theorem checkGuess_statuses (g t : List Char)
    (hg : g.length = 5) (ht : t.length = 5) :
    (checkGuess g t).length = 5 ∧
    (∀ s ∈ checkGuess g t,
      s = Status.correct ∨ s = Status.misplaced ∨ s = Status.wrong) ∧
    (checkGuess g t).count Status.correct
      = (g.zip t).countP (fun p => p.1 == p.2) := by
  have hgt : g.length = t.length := by omega
  have hal := aligned_fp g t hgt
  refine ⟨?_, ?_, ?_⟩
  · have h1 : (fpGuess g t).length = (fpRes g t).length := by
      simp [fpGuess, fpRes]
    have h2 := secondPass_length (fpGuess g t) (fpRes g t) (fpTarget g t) h1
    rw [checkGuess, h2]
    simp [fpRes, hg, ht]
  · intro s _
    cases s
    · exact Or.inl rfl
    · exact Or.inr (Or.inl rfl)
    · exact Or.inr (Or.inr rfl)
  · rw [checkGuess, secondPass_count_correct hal, fpRes_count_correct]

/-- Witness for C1 at guess `"vital"`, target `"blaze"`. -/
theorem checkGuess_statuses_witness :
    (checkGuess "vital".toList "blaze".toList).length = 5 ∧
    (∀ s ∈ checkGuess "vital".toList "blaze".toList,
      s = Status.correct ∨ s = Status.misplaced ∨ s = Status.wrong) ∧
    (checkGuess "vital".toList "blaze".toList).count Status.correct
      = (("vital".toList).zip "blaze".toList).countP (fun p => p.1 == p.2) :=
  checkGuess_statuses "vital".toList "blaze".toList (by decide) (by decide)

/-- C2: for every pair of 5-letter strings and every letter `c`, the
number of guess positions holding `c` that are marked `correct` or
`misplaced` never exceeds the occurrences of `c` in the target; and for
guess `"eerie"` against target `"arena"`, exactly one `'e'` position is
marked. -/
theorem checkGuess_letter_bound (g t : List Char) (c : Char)
    (hg : g.length = 5) (ht : t.length = 5) :
    ((g.zip (checkGuess g t)).countP
        (fun p => p.1 == c
          && (p.2 == Status.correct || p.2 == Status.misplaced)))
      ≤ t.count c ∧
    (("eerie".toList.zip (checkGuess "eerie".toList "arena".toList)).countP
        (fun p => p.1 == 'e'
          && (p.2 == Status.correct || p.2 == Status.misplaced))) = 1 := by
  constructor
  · have hgt : g.length = t.length := by omega
    have hal := aligned_fp g t hgt
    have h1 := secondPass_marked c hal (fpTarget g t)
    have h2 := fp_marked_correct c g t hgt
    rw [checkGuess]
    omega
  · decide

/-- Witness for C2 at guess `"eerie"`, target `"arena"`, letter `'e'`. -/
theorem checkGuess_letter_bound_witness :
    (("eerie".toList.zip (checkGuess "eerie".toList "arena".toList)).countP
        (fun p => p.1 == 'e'
          && (p.2 == Status.correct || p.2 == Status.misplaced)))
      ≤ ("arena".toList).count 'e' ∧
    (("eerie".toList.zip (checkGuess "eerie".toList "arena".toList)).countP
        (fun p => p.1 == 'e'
          && (p.2 == Status.correct || p.2 == Status.misplaced))) = 1 :=
  checkGuess_letter_bound "eerie".toList "arena".toList 'e'
    (by decide) (by decide)

/-- C3 counterexample: the spec's worked example is wrong on the code —
`checkGuess("grape", "crane")` does not return
`[wrong, correct, wrong, misplaced, correct]` (the letter `'a'` sits at
position 2 in both words, so position 2 is `correct`). -/
theorem checkGuess_grape_crane_spec_example_false :
    checkGuess "grape".toList "crane".toList
      ≠ [Status.wrong, Status.correct, Status.wrong,
         Status.misplaced, Status.correct] := by
  decide

/-- C3 amended: `checkGuess("grape", "crane")` returns
`[wrong, correct, correct, wrong, correct]`. -/
theorem checkGuess_grape_crane :
    checkGuess "grape".toList "crane".toList
      = [Status.wrong, Status.correct, Status.correct,
         Status.wrong, Status.correct] := by
  decide

/-- Every word on the fallback list is non-empty, five letters long, and
already lowercase. -/
theorem fallbackWords_shape :
    ∀ w ∈ fallbackWords, w.length = 5 ∧ w ≠ [] ∧ jsToLower w = w := by
  decide

/-- C4 counterexample: a remote response that parses to the array
`[""]` passes the code's `Array.isArray(data) && data.length > 0` check,
so `getRandomWord` returns the empty string — not a word of length 5 and
not a fallback word.  The code checks only the shape of the response,
never the length of the word it carries. -/
theorem getRandomWord_empty_remote_word :
    getRandomWord (RemoteResponse.arr [[]]) 0 = [] ∧
    (getRandomWord (RemoteResponse.arr [[]]) 0).length ≠ 5 := by
  decide

/-- C4 amended: on every failure of the remote call (throw, non-array
response, empty array) `getRandomWord` absorbs the failure and returns a
word from the fixed fallback list, which is non-empty and of length 5;
but when the remote returns a non-empty array, its first element is
returned lowercased with no length check, so the length-5 guarantee
holds only on the fallback path. -/
theorem getRandomWord_fallback (resp : RemoteResponse) (k : Nat) :
    (resp = RemoteResponse.err ∨ resp = RemoteResponse.nonArray
        ∨ resp = RemoteResponse.arr [] →
      getRandomWord resp k ∈ fallbackWords
        ∧ (getRandomWord resp k).length = 5
        ∧ getRandomWord resp k ≠ []) ∧
    (∀ w ws, resp = RemoteResponse.arr (w :: ws) →
      getRandomWord resp k = jsToLower w) := by
  constructor
  · intro h
    have hfall : getRandomWord resp k
        = fallbackWords.getD (k % fallbackWords.length) [] := by
      rcases h with rfl | rfl | rfl <;> rfl
    have hlt : k % fallbackWords.length < fallbackWords.length :=
      Nat.mod_lt _ (by decide)
    rw [hfall, List.getD_eq_getElem _ _ hlt]
    have hmem : fallbackWords[k % fallbackWords.length] ∈ fallbackWords :=
      List.getElem_mem hlt
    exact ⟨hmem, (fallbackWords_shape _ hmem).1, (fallbackWords_shape _ hmem).2.1⟩
  · intro w ws h
    subst h
    rfl

/-- Witness for C4 at a failed fetch and at a successful response. -/
theorem getRandomWord_fallback_witness :
    (getRandomWord RemoteResponse.err 0 ∈ fallbackWords
      ∧ (getRandomWord RemoteResponse.err 0).length = 5
      ∧ getRandomWord RemoteResponse.err 0 ≠ []) ∧
    getRandomWord (RemoteResponse.arr ["CRANE".toList]) 7
      = jsToLower "CRANE".toList :=
  ⟨(getRandomWord_fallback RemoteResponse.err 0).1 (Or.inl rfl),
   (getRandomWord_fallback (RemoteResponse.arr ["CRANE".toList]) 7).2
     "CRANE".toList [] rfl⟩

/-- C7: `isWordValid` accepts a word exactly when its lowercasing is on
the fixed fallback list — the same 10-word list `getRandomWord` falls
back to — so membership is case-insensitive and no larger dictionary is
consulted; in particular every fallback-chosen target is itself an
acceptable guess. -/
theorem isWordValid_spec (w : List Char) :
    (isWordValid w = true ↔ jsToLower w ∈ fallbackWords) ∧
    isWordValid "APPLE".toList = true ∧
    isWordValid "Crane".toList = true ∧
    isWordValid "hello".toList = false ∧
    (∀ k : Nat, isWordValid (getRandomWord RemoteResponse.err k) = true) := by
  refine ⟨?_, by decide, by decide, by decide, ?_⟩
  · simp [isWordValid]
  · intro k
    have hlt : k % fallbackWords.length < fallbackWords.length :=
      Nat.mod_lt _ (by decide)
    show isWordValid (fallbackWords.getD (k % fallbackWords.length) []) = true
    rw [List.getD_eq_getElem _ _ hlt]
    have hall : ∀ w ∈ fallbackWords, isWordValid w = true := by decide
    exact hall _ (List.getElem_mem hlt)

/-- C8: the evaluator is deterministic — it is a pure function of its
two string arguments (its only non-local reference is the constant
`gameConfig`), so any two calls on the same guess and target yield the
same status sequence. -/
theorem checkGuess_deterministic (g t : List Char) (r₁ r₂ : List Status)
    (h₁ : checkGuess g t = r₁) (h₂ : checkGuess g t = r₂) : r₁ = r₂ :=
  h₁.symm.trans h₂

/-- Witness for C8 at guess `"serve"`, target `"flame"`. -/
theorem checkGuess_deterministic_witness :
    checkGuess "serve".toList "flame".toList
      = checkGuess "serve".toList "flame".toList :=
  checkGuess_deterministic "serve".toList "flame".toList _ _ rfl rfl

/-- C5: a submission with an incomplete row, and a submission whose row
word is not acceptable, each leave the entire session state (grid,
currentRow, currentCol, targetWord) unchanged, and the two rejections
are distinct signals. -/
theorem submitGuess_rejections (st : GameState) :
    (st.currentCol < gameConfig.cols →
      submitGuess st = (SubmitResult.incomplete, st)) ∧
    (¬ st.currentCol < gameConfig.cols →
      isWordValid (rowWord st) = false →
      submitGuess st = (SubmitResult.invalidWord, st)) ∧
    SubmitResult.incomplete ≠ SubmitResult.invalidWord := by
  refine ⟨?_, ?_, by decide⟩
  · intro h
    simp [submitGuess, h]
  · intro h hv
    simp [submitGuess, h, hv]

/-- A fresh-looking session state with `"hello"` typed into row 0: a
complete row spelling a word outside the acceptable list. -/
def invalidWordState : GameState :=
  { targetWord := "crane".toList
    currentRow := 0
    currentCol := 5
    grid := [[['h'], ['e'], ['l'], ['l'], ['o']]] }

/-- Witness for C5: a fresh session (cursor at 0) is rejected as
incomplete; a complete row spelling `"hello"` is rejected as invalid. -/
theorem submitGuess_rejections_witness :
    submitGuess (initialiseGame RemoteResponse.err 0)
      = (SubmitResult.incomplete, initialiseGame RemoteResponse.err 0) ∧
    submitGuess invalidWordState
      = (SubmitResult.invalidWord, invalidWordState) :=
  ⟨(submitGuess_rejections (initialiseGame RemoteResponse.err 0)).1
      (by decide),
   (submitGuess_rejections invalidWordState).2.1 (by decide) (by decide)⟩

/-- C6: whenever the submitted guess equals the target — with no
condition on the attempt index, so in particular on the last allowed
attempt where `currentRow + 1 = rows` — `submitGuess` reports `won`, not
`lost`, the keydown listener is removed, and every subsequent key event
leaves the session unchanged. -/
theorem submitGuess_win_terminal (s : Session) (hl : s.listening = true)
    (hc : ¬ s.game.currentCol < gameConfig.cols)
    (hv : isWordValid (rowWord s.game) = true)
    (hw : rowWord s.game = s.game.targetWord) :
    (submitGuess s.game).1 = SubmitResult.won ∧
    (submitGuess s.game).1 ≠ SubmitResult.lost ∧
    (handleKeydown s "Enter".toList).listening = false ∧
    (∀ key, handleKeydown (handleKeydown s "Enter".toList) key
      = handleKeydown s "Enter".toList) := by
  have hv' : isWordValid s.game.targetWord = true := hw ▸ hv
  have hsub : submitGuess s.game = (SubmitResult.won, s.game) := by
    simp [submitGuess, hc, hv, hv', hw]
  have henter : handleKeydown s "Enter".toList
      = { game := s.game, listening := false } := by
    simp +decide [handleKeydown, hl, hsub]
  refine ⟨by rw [hsub], by simp [hsub], by rw [henter], ?_⟩
  intro key
  rw [henter]
  simp [handleKeydown]

/-- A session on its last allowed attempt (`currentRow = 5`,
`rows = 6`), with the target word `"apple"` fully typed into row 5. -/
def lastAttemptWinSession : Session :=
  { game :=
      { targetWord := "apple".toList
        currentRow := 5
        currentCol := 5
        grid := List.replicate 5 (List.replicate 5 [])
          ++ [[['a'], ['p'], ['p'], ['l'], ['e']]] }
    listening := true }

/-- Witness for C6 on the last allowed attempt. -/
theorem submitGuess_win_terminal_witness :
    (submitGuess lastAttemptWinSession.game).1 = SubmitResult.won ∧
    (submitGuess lastAttemptWinSession.game).1 ≠ SubmitResult.lost ∧
    (handleKeydown lastAttemptWinSession "Enter".toList).listening = false ∧
    (∀ key, handleKeydown
        (handleKeydown lastAttemptWinSession "Enter".toList) key
      = handleKeydown lastAttemptWinSession "Enter".toList) :=
  submitGuess_win_terminal lastAttemptWinSession rfl
    (by decide) (by decide) (by decide)

/-- C10: a winning submission returns before the attempt counter
advances, leaving the whole state (grid, cursor, counters) unchanged;
an accepted non-winning submission increments `currentRow` and resets
`currentCol` to 0 (touching nothing else); and no submission ever
changes `targetWord`. -/
theorem submitGuess_frame (st : GameState) :
    ((submitGuess st).1 = SubmitResult.won → (submitGuess st).2 = st) ∧
    (¬ st.currentCol < gameConfig.cols →
      isWordValid (rowWord st) = true →
      rowWord st ≠ st.targetWord →
      (submitGuess st).2
        = { st with currentRow := st.currentRow + 1, currentCol := 0 }) ∧
    (submitGuess st).2.targetWord = st.targetWord := by
  simp only [submitGuess]
  split_ifs with h1 h2 h3 h4 <;> simp_all

/-- A session state one valid, non-winning guess in: `"apple"` typed
against target `"crane"`. -/
def acceptedGuessState : GameState :=
  { targetWord := "crane".toList
    currentRow := 0
    currentCol := 5
    grid := [[['a'], ['p'], ['p'], ['l'], ['e']]] }

/-- Witness for C10: the winning submission of `lastAttemptWinSession`
leaves the state unchanged; the accepted non-winning `"apple"` guess
advances the row, resets the cursor, and keeps the target word. -/
theorem submitGuess_frame_witness :
    (submitGuess lastAttemptWinSession.game).2 = lastAttemptWinSession.game ∧
    (submitGuess acceptedGuessState).2
      = { acceptedGuessState with
          currentRow := acceptedGuessState.currentRow + 1
          currentCol := 0 } ∧
    (submitGuess acceptedGuessState).2.targetWord
      = acceptedGuessState.targetWord :=
  ⟨(submitGuess_frame lastAttemptWinSession.game).1 (by decide),
   (submitGuess_frame acceptedGuessState).2.1
     (by decide) (by decide) (by decide),
   (submitGuess_frame acceptedGuessState).2.2⟩

/-! ## The grid-cell invariant (C9) -/

/-- A well-formed grid cell: the empty string or a single lowercase
letter. -/
def cellOK (cell : List Char) : Bool :=
  match cell with
  | [] => true
  | [c] => c.isLower
  | _ => false

/-- Every slot of the grid is a well-formed cell. -/
def gridOK (st : GameState) : Bool :=
  st.grid.all fun row => row.all fun cell => cellOK cell

theorem gridOK_iff (st : GameState) :
    gridOK st = true ↔
      ∀ row ∈ st.grid, ∀ cell ∈ row, cellOK cell = true := by
  simp [gridOK, List.all_eq_true]

theorem uint32_le_iff (a b : UInt32) : a ≤ b ↔ a.toNat ≤ b.toNat := by
  rw [UInt32.le_def, BitVec.le_def]
  rfl

theorem char_toNat_ofNat (n : Nat) (h : n.isValidChar) :
    (Char.ofNat n).toNat = n := by
  unfold Char.ofNat
  rw [dif_pos h]
  unfold Char.ofNatAux
  simp [Char.toNat, UInt32.toNat]

/-- Lowercasing a basic latin letter yields a lowercase letter. -/
theorem toLower_isLower (c : Char) (h : c.isAlpha = true) :
    (Char.toLower c).isLower = true := by
  simp only [Char.isAlpha, Bool.or_eq_true, Char.isUpper, Char.isLower,
    Bool.and_eq_true, decide_eq_true_eq] at h ⊢
  unfold Char.toLower
  rcases h with ⟨h1, h2⟩ | ⟨h1, h2⟩
  · have hn1 : 65 ≤ c.toNat := UInt32.le_toNat_of_le (by decide) h1
    have hn2 : c.toNat ≤ 90 := UInt32.toNat_le_of_le (by decide) h2
    rw [if_pos ⟨by omega, by omega⟩]
    have hv : (c.toNat + 32).isValidChar := Or.inl (by omega)
    have hval : (Char.ofNat (c.toNat + 32)).toNat = c.toNat + 32 :=
      char_toNat_ofNat _ hv
    constructor
    · rw [show ((Char.ofNat (c.toNat + 32)).val ≥ 97)
        = ((97 : UInt32) ≤ (Char.ofNat (c.toNat + 32)).val) from rfl,
        uint32_le_iff]
      change 97 ≤ (Char.ofNat (c.toNat + 32)).toNat
      omega
    · rw [show ((Char.ofNat (c.toNat + 32)).val ≤ 122)
        = ((Char.ofNat (c.toNat + 32)).val ≤ (122 : UInt32)) from rfl,
        uint32_le_iff]
      change (Char.ofNat (c.toNat + 32)).toNat ≤ 122
      omega
  · have hn1 : 97 ≤ c.toNat := UInt32.le_toNat_of_le (by decide) h1
    have hn2 : c.toNat ≤ 122 := UInt32.toNat_le_of_le (by decide) h2
    rw [if_neg (by omega)]
    exact ⟨h1, h2⟩

/-- A key accepted by `isLetter` is a single basic latin letter. -/
theorem isLetterKey_shape {k : List Char} (h : isLetterKey k = true) :
    ∃ c, k = [c] ∧ c.isAlpha = true := by
  cases k with
  | nil => simp [isLetterKey] at h
  | cons c rest =>
    cases rest with
    | nil =>
      refine ⟨c, rfl, ?_⟩
      simpa [isLetterKey] using h
    | cons d rest => simp [isLetterKey] at h

/-- Writing a well-formed cell into a well-formed grid keeps every slot
well-formed. -/
theorem gridOK_setCell {st : GameState} (h : gridOK st = true) (r c : Nat)
    {v : List Char} (hv : cellOK v = true) :
    ∀ row ∈ setCell st.grid r c v, ∀ cell ∈ row, cellOK cell = true := by
  have h' := (gridOK_iff st).mp h
  intro row hrow cell hcell
  rcases List.mem_or_eq_of_mem_set hrow with hrow' | rfl
  · exact h' row hrow' cell hcell
  · rcases List.mem_or_eq_of_mem_set hcell with hcell' | rfl
    · by_cases hr : r < st.grid.length
      · rw [List.getD_eq_getElem _ _ hr] at hcell'
        exact h' _ (List.getElem_mem hr) cell hcell'
      · rw [List.getD_eq_default _ _ (by omega)] at hcell'
        simp at hcell'
    · exact hv

/-- The state returned by `submitGuess` always carries the same grid. -/
theorem submitGuess_grid (st : GameState) :
    (submitGuess st).2.grid = st.grid := by
  simp only [submitGuess]
  split_ifs <;> rfl

/-- C9: a freshly initialised grid satisfies the cell invariant (every
slot empty or one lowercase letter), and `addLetter` (which lowercases
the accepted key, even an uppercase one, before storing it),
`removeLetter`, and `submitGuess` all preserve it. -/
theorem grid_cells_invariant (st : GameState) (key : List Char)
    (resp : RemoteResponse) (k : Nat)
    (hkey : isLetterKey key = true) (hst : gridOK st = true) :
    gridOK (initialiseGame resp k) = true ∧
    gridOK (addLetter st key) = true ∧
    gridOK (removeLetter st) = true ∧
    gridOK (submitGuess st).2 = true := by
  refine ⟨?_, ?_, ?_, ?_⟩
  · rw [gridOK_iff]
    intro row hrow cell hcell
    have hrow' : row = List.replicate gameConfig.cols ([] : List Char) :=
      List.eq_of_mem_replicate hrow
    subst hrow'
    have : cell = ([] : List Char) := List.eq_of_mem_replicate hcell
    subst this
    rfl
  · rcases isLetterKey_shape hkey with ⟨c, rfl, hc⟩
    rw [addLetter]
    split_ifs with hcond
    · exact hst
    · rw [gridOK_iff]
      exact gridOK_setCell hst _ _
        (by simpa [jsToLower, cellOK] using toLower_isLower c hc)
  · rw [removeLetter]
    split_ifs with hcond
    · exact hst
    · rw [gridOK_iff]
      exact gridOK_setCell hst _ _ rfl
  · rw [gridOK_iff]
    intro row hrow cell hcell
    rw [submitGuess_grid] at hrow
    exact (gridOK_iff st).mp hst row hrow cell hcell

/-- Witness for C9: a fresh session, with the uppercase key `"Q"`
entered (stored lowercased). -/
theorem grid_cells_invariant_witness :
    gridOK (initialiseGame RemoteResponse.err 1) = true ∧
    gridOK (addLetter (initialiseGame RemoteResponse.err 0) ['Q']) = true ∧
    gridOK (removeLetter (initialiseGame RemoteResponse.err 0)) = true ∧
    gridOK (submitGuess (initialiseGame RemoteResponse.err 0)).2 = true :=
  grid_cells_invariant (initialiseGame RemoteResponse.err 0) ['Q']
    RemoteResponse.err 1 (by decide) (by decide)

end Wordle
